import Mathlib

/-!
Verification development for the ILS kickoff segmentation-and-aggregation
script (`ils_kickoff.py`).  The script's analyses are shallowly embedded as
pure Lean functions over lists of account records with exact rational
arithmetic; pandas/NumPy behaviours that the analyses rely on (half-even
rounding, `pd.cut` interval binning, `groupby` null-key handling, `np.where`
zero guards, categorical sorting) are modelled explicitly.
-/

namespace Ils

/-! ### Rounding

`Series.round` / Python `round` use round-half-to-even.  `rnd` is that
integer rounding on `ℚ`; `roundTo p x` rounds `x` to `p` decimal places. -/

/-- Round-half-to-even to the nearest integer, as NumPy/pandas rounding does. -/
def rnd (x : ℚ) : ℤ :=
  if Int.fract x < 1 / 2 then ⌊x⌋
  else if 1 / 2 < Int.fract x then ⌊x⌋ + 1
  else if 2 ∣ ⌊x⌋ then ⌊x⌋ else ⌊x⌋ + 1

/-- Round to `p` decimal places (the `.round(p)` of the script). -/
def roundTo (p : ℕ) (x : ℚ) : ℚ := (rnd (x * 10 ^ p) : ℚ) / 10 ^ p



/-! ### Binning (`pd.cut`)

`pd.cut(col, bins=B, labels=L)` with right-closed intervals maps a value
`v` to label `i` iff `B[i] < v ≤ B[i+1]`, and to null (`NaN`) when `v` is
at or below the first edge or above the last.  The script's bin edge lists
end in `float("inf")`, modelled by `Bnd.inf`. -/

/-- A bin edge: a finite rational or `float("inf")`. -/
inductive Bnd where
  | fin (q : ℚ)
  | inf
deriving DecidableEq

/-- `b < v` for an edge `b` and a value `v` (an infinite edge exceeds all values). -/
def bndLtQ : Bnd → ℚ → Bool
  | .fin q, v => q < v
  | .inf, _ => false

/-- `v ≤ b` for a value `v` and an edge `b`. -/
def qLeBnd : ℚ → Bnd → Bool
  | v, .fin q => v ≤ q
  | _, .inf => true

/-- Strict order between edges. -/
def bndLt : Bnd → Bnd → Bool
  | .fin a, .fin b => a < b
  | .fin _, .inf => true
  | .inf, _ => false



/-- Strictly increasing edge list. -/
def BndSorted (bins : List Bnd) : Prop := List.Chain' (fun a b => bndLt a b = true) bins

/-- Scan the remaining edges: `lo` is the lower edge of the interval whose
index is `n`; return the index of the interval containing `v`, if any. -/
def cutGoIdx (lo : Bnd) (bins : List Bnd) (v : ℚ) (n : ℕ) : Option ℕ :=
  match bins with
  | [] => none
  | hi :: rest => if bndLtQ lo v && qLeBnd v hi then some n else cutGoIdx hi rest v (n + 1)

/-- Index of the (half-open, right-closed) bin of `v`, or `none` when `v`
is outside every interval — `pd.cut`'s null. -/
def pdCutIdx (bins : List Bnd) (v : ℚ) : Option ℕ :=
  match bins with
  | [] => none
  | b0 :: rest => cutGoIdx b0 rest v 0

/-- `pd.cut` with labels: the bin index looked up in the label list. -/
def pdCut (bins : List Bnd) (labels : List String) (v : ℚ) : Option String :=
  (pdCutIdx bins v).bind fun i => labels[i]?

/-! ### The script's concrete bin specifications (lines 221–225). -/

/-- `NSF_BINS = [-1, 0, 6, 12, 24, 36, 48, float("inf")]`. -/
def NSF_BINS : List Bnd :=
  [.fin (-1), .fin 0, .fin 6, .fin 12, .fin 24, .fin 36, .fin 48, .inf]

/-- `NSF_LABELS = ["0", "1–6", "7–12", "13–24", "25–36", "37–48", "49+"]`. -/
def NSF_LABELS : List String := ["0", "1–6", "7–12", "13–24", "25–36", "37–48", "49+"]

/-- `DEP_BINS = [-1, 0, 1, 2, 5, 10, float("inf")]`. -/
def DEP_BINS : List Bnd := [.fin (-1), .fin 0, .fin 1, .fin 2, .fin 5, .fin 10, .inf]

/-- `DEP_LABELS = ["0", "1", "2", "3–5", "6–10", "10+"]`. -/
def DEP_LABELS : List String := ["0", "1", "2", "3–5", "6–10", "10+"]

/-! ### String ordering

Python sorts strings (and pandas sorts `groupby` keys) by code-point
lexicographic order; `lexLE`/`strLE` is that order on Lean strings. -/

/-- Code-point lexicographic comparison of character lists. -/
def lexLE : List Char → List Char → Bool
  | [], _ => true
  | _ :: _, [] => false
  | a :: as, b :: bs => if a < b then true else if b < a then false else lexLE as bs

/-- Python's `s1 <= s2` on strings. -/
def strLE (a b : String) : Bool := lexLE a.data b.data

/-- Sort a list of strings ascending, as `sorted` / a sorting `groupby` does. -/
def sortStrs (l : List String) : List String :=
  List.insertionSort (fun a b => strLE a b = true) l

/-! ### Account records

One row of the cleaned input table (§2 of the script): the columns the
analyses read, after renaming, zero-filling and type coercion.  `regE` is
`none` when the Reg E flag is absent (pandas `NaN`), `openYear` is `none`
when the open date failed to parse. -/

structure Rec where
  acctNo : ℕ
  accountStatus : String
  businessFlag : String
  odStatus : String
  regE : Option String
  totalItems : ℚ
  paidItems : ℚ
  odLimit : ℚ
  depositCount : ℚ
  depositAmount : ℚ
  swipes : ℚ
  openYear : Option ℤ
deriving DecidableEq

/-- `PERSONAL_OPEN` mask (line 218): open personal accounts. -/
def personalOpen (t : List Rec) : List Rec :=
  t.filter fun r => r.accountStatus == "O" && r.businessFlag == "P"

/-- Population mean of a column, `Series.mean` on a non-empty column. -/
def meanQ (l : List ℚ) : ℚ := l.sum / (l.length : ℚ)



/-! ### Analysis 1 — Account Status Summary (lines 229–257)

`df.groupby("Account Status")` with count/sum aggregations, derived
percentage and pay-ratio columns, and a grand-total row computed from the
summed (unrounded) group columns, appended last. -/

structure Row1 where
  accountStatus : String
  nAccounts : ℚ
  nItems : ℚ
  nItemsPaid : ℚ
  pctAccounts : ℚ
  pctItems : ℚ
  payRatio : ℚ
deriving DecidableEq

/-- The keys of a sorting `groupby` over a string column: the distinct
values, in ascending order (nulls are impossible for a plain string key). -/
def groupKeys (t : List Rec) (key : Rec → String) : List String :=
  sortStrs (t.map key).dedup

/-- The group rows of analysis 1: the records with the given status. -/
def grp1 (t : List Rec) (s : String) : List Rec :=
  t.filter fun r => r.accountStatus == s

/-- Total accounts: `stat_code_summary["# of Accounts"].sum()` (line 239). -/
def ta1 (t : List Rec) : ℚ :=
  ((groupKeys t (·.accountStatus)).map fun s => ((grp1 t s).length : ℚ)).sum

/-- Total items `ti` (line 247). -/
def ti1 (t : List Rec) : ℚ :=
  ((groupKeys t (·.accountStatus)).map fun s => ((grp1 t s).map (·.totalItems)).sum).sum

/-- Total paid items `tp` (line 248). -/
def tp1 (t : List Rec) : ℚ :=
  ((groupKeys t (·.accountStatus)).map fun s => ((grp1 t s).map (·.paidItems)).sum).sum

/-- One per-status summary row with its derived columns (lines 231–244). -/
def row1 (t : List Rec) (s : String) : Row1 :=
  { accountStatus := s
    nAccounts := ((grp1 t s).length : ℚ)
    nItems := ((grp1 t s).map (·.totalItems)).sum
    nItemsPaid := ((grp1 t s).map (·.paidItems)).sum
    pctAccounts := roundTo 2 (((grp1 t s).length : ℚ) / ta1 t * 100)
    pctItems := roundTo 2 (((grp1 t s).map (·.totalItems)).sum / ti1 t * 100)
    payRatio :=
      if 0 < ((grp1 t s).map (·.totalItems)).sum then
        roundTo 2 (((grp1 t s).map (·.paidItems)).sum / ((grp1 t s).map (·.totalItems)).sum)
      else 0 }

/-- The grand-total row `gt` (lines 249–255). -/
def gt1 (t : List Rec) : Row1 :=
  { accountStatus := "Grand Total", nAccounts := ta1 t, nItems := ti1 t,
    nItemsPaid := tp1 t, pctAccounts := 100, pctItems := 100,
    payRatio := if 0 < ti1 t then roundTo 2 (tp1 t / ti1 t) else 0 }

/-- Analysis 1: the full report table, grand total appended last (line 256). -/
def analysis1 (t : List Rec) : List Row1 :=
  ((groupKeys t (·.accountStatus)).map fun s => row1 t s) ++ [gt1 t]

/-! ### Analyses 7 and 9 — Personal NSF stratification (lines 384–407, 436–473)

`pd.cut` on `Total Items` with the NSF bins, `groupby("NSF Bin",
observed=True)` (bin-declaration order, empty bins dropped), derived
percentage / pay-rate columns with zero guards, and a grand-total row from
the summed group columns; analysis 9 adds behavioural averages whose
grand-total values are the population means of the unfiltered personal
subset. -/

/-- The NSF bin of a record (line 387). -/
def nsfBinOf (r : Rec) : Option String := pdCut NSF_BINS NSF_LABELS r.totalItems

/-- `groupby` over a categorical bin column with `observed=True`: one group
per declared label, in declaration order, empty groups dropped. -/
def binGroups (labels : List String) (bin : Rec → Option String) (rows : List Rec) :
    List (String × List Rec) :=
  (labels.map fun lab => (lab, rows.filter fun r => bin r == some lab)).filter
    fun g => !g.2.isEmpty

structure Row7 where
  nsfBin : String
  nAccounts : ℚ
  nItems : ℚ
  nItemsPaid : ℚ
  pctAccounts : ℚ
  pctItemsPresented : ℚ
  payRate : ℚ
deriving DecidableEq

/-- The NSF bin groups of the open personal subset. -/
def gs7 (t : List Rec) : List (String × List Rec) :=
  binGroups NSF_LABELS nsfBinOf (personalOpen t)

/-- `ta7` (line 394): the summed group counts. -/
def ta7 (t : List Rec) : ℚ := ((gs7 t).map fun g => ((g.2.length : ℚ))).sum

/-- `ti7` (line 395): the summed group item totals. -/
def ti7 (t : List Rec) : ℚ := ((gs7 t).map fun g => (g.2.map (·.totalItems)).sum).sum

/-- `tp7` (line 396): the summed group paid-item totals. -/
def tp7 (t : List Rec) : ℚ := ((gs7 t).map fun g => (g.2.map (·.paidItems)).sum).sum

/-- One per-bin summary row of analysis 7 (lines 389–399). -/
def row7 (t : List Rec) (g : String × List Rec) : Row7 :=
  { nsfBin := g.1
    nAccounts := (g.2.length : ℚ)
    nItems := (g.2.map (·.totalItems)).sum
    nItemsPaid := (g.2.map (·.paidItems)).sum
    pctAccounts := roundTo 2 ((g.2.length : ℚ) / ta7 t * 100)
    pctItemsPresented :=
      if 0 < ti7 t then roundTo 2 ((g.2.map (·.totalItems)).sum / ti7 t * 100) else 0
    payRate :=
      if 0 < (g.2.map (·.totalItems)).sum then
        roundTo 1 ((g.2.map (·.paidItems)).sum / (g.2.map (·.totalItems)).sum * 100)
      else 0 }

/-- The grand-total row `gt7` (lines 401–405). -/
def gt7 (t : List Rec) : Row7 :=
  { nsfBin := "Grand Total", nAccounts := ta7 t, nItems := ti7 t, nItemsPaid := tp7 t,
    pctAccounts := 100, pctItemsPresented := 100,
    payRate := if 0 < ti7 t then roundTo 1 (tp7 t / ti7 t * 100) else 0 }

/-- Analysis 7: Personal NSF + Pay Ratio, grand total appended last (line 406). -/
def analysis7 (t : List Rec) : List Row7 :=
  ((gs7 t).map fun g => row7 t g) ++ [gt7 t]

structure Row9 where
  nsfBin : String
  nAccounts : ℚ
  nItems : ℚ
  nItemsPaid : ℚ
  avgDepCount : ℚ
  avgDepAmount : ℚ
  avgOdLimit : ℚ
  avgSwipes : ℚ
  pctAccounts : ℚ
  pctItemsPresented : ℚ
  payRate : ℚ
deriving DecidableEq

/-- One per-bin summary row of analysis 9 (lines 441–459), before the
final rounding of the average columns. -/
def row9 (t : List Rec) (g : String × List Rec) : Row9 :=
  { nsfBin := g.1
    nAccounts := (g.2.length : ℚ)
    nItems := (g.2.map (·.totalItems)).sum
    nItemsPaid := (g.2.map (·.paidItems)).sum
    avgDepCount := meanQ (g.2.map (·.depositCount))
    avgDepAmount := meanQ (g.2.map (·.depositAmount))
    avgOdLimit := meanQ (g.2.map (·.odLimit))
    avgSwipes := meanQ (g.2.map (·.swipes))
    pctAccounts := roundTo 2 ((g.2.length : ℚ) / ta7 t * 100)
    pctItemsPresented :=
      if 0 < ti7 t then roundTo 2 ((g.2.map (·.totalItems)).sum / ti7 t * 100) else 0
    payRate :=
      if 0 < (g.2.map (·.totalItems)).sum then
        roundTo 1 ((g.2.map (·.paidItems)).sum / (g.2.map (·.totalItems)).sum * 100)
      else 0 }

/-- The grand-total row `gt9` (lines 461–469): counts from the summed
group columns, averages recomputed as population means of the whole
unfiltered personal subset `p9`. -/
def gt9 (t : List Rec) : Row9 :=
  { nsfBin := "Grand Total", nAccounts := ta7 t, nItems := ti7 t, nItemsPaid := tp7 t,
    avgDepCount := meanQ ((personalOpen t).map (·.depositCount))
    avgDepAmount := meanQ ((personalOpen t).map (·.depositAmount))
    avgOdLimit := meanQ ((personalOpen t).map (·.odLimit))
    avgSwipes := meanQ ((personalOpen t).map (·.swipes))
    pctAccounts := 100, pctItemsPresented := 100,
    payRate := if 0 < ti7 t then roundTo 1 (tp7 t / ti7 t * 100) else 0 }

/-- The final rounding of the four average columns (lines 471–472),
applied to every row, grand total included. -/
def roundAvgs (row : Row9) : Row9 :=
  { row with avgDepCount := roundTo 2 row.avgDepCount,
             avgDepAmount := roundTo 2 row.avgDepAmount,
             avgOdLimit := roundTo 2 row.avgOdLimit,
             avgSwipes := roundTo 2 row.avgSwipes }

/-- Analysis 9: Personal NSF + Deposits + Swipes, grand total appended
last (line 470), then the average columns rounded (lines 471–472). -/
def analysis9 (t : List Rec) : List Row9 :=
  (((gs7 t).map fun g => row9 t g) ++ [gt9 t]).map roundAvgs

/-! ### Analysis 13 — Reg E Summary (lines 566–576)

`p_rege.groupby("Reg E Flag")` uses the pandas default `dropna=True`:
rows whose flag is null are dropped from the grouped output, so the keys
are the distinct non-null flag values, in sorted order. -/

structure Row13 where
  regEFlag : Option String
  nAccounts : ℚ
  pctAccounts : ℚ
deriving DecidableEq

/-- The non-null flag keys of the default (`dropna=True`) `groupby`
(line 570), in sorted order. -/
def keys13 (t : List Rec) : List String :=
  sortStrs ((personalOpen t).filterMap (·.regE)).dedup

/-- The rows of one flag group. -/
def grp13 (t : List Rec) (s : String) : List Rec :=
  (personalOpen t).filter fun r => r.regE == some s

/-- `ta13` (line 571): the summed group counts — rows with a null flag
are not in any group and are not counted. -/
def ta13 (t : List Rec) : ℚ := ((keys13 t).map fun s => ((grp13 t s).length : ℚ)).sum

/-- One per-flag summary row (lines 570–572). -/
def row13 (t : List Rec) (s : String) : Row13 :=
  { regEFlag := some s
    nAccounts := ((grp13 t s).length : ℚ)
    pctAccounts := roundTo 2 (((grp13 t s).length : ℚ) / ta13 t * 100) }

/-- The grand-total row `gt13` (line 574). -/
def gt13 (t : List Rec) : Row13 :=
  { regEFlag := some "Grand Total", nAccounts := ta13 t, pctAccounts := 100 }

/-- Analysis 13: Reg E distribution over personal open accounts, grand
total appended last (line 575).  The flag column holds `some v` for each
non-null group key; a null-flag group would be `none`, but the default
`groupby` never emits one. -/
def analysis13 (t : List Rec) : List Row13 :=
  ((keys13 t).map fun s => row13 t s) ++ [gt13 t]

/-! ### Analysis 15 — Historical Reg E by Year Opened (lines 615–666) -/

/-- `assign_year_bin` (lines 620–625). -/
def assignYearBin (year : Option ℤ) : String :=
  match year with
  | none => "Unknown"
  | some y => if y < 2010 then "<2010" else if y ≤ 2025 then toString y else "2025+"

/-- The year bin of a record. -/
def yearBinOf (r : Rec) : String := assignYearBin r.openYear

/-- The rows entering analysis 15: personal open accounts with a parsed
open date (line 618). -/
def histRows (t : List Rec) : List Rec :=
  (personalOpen t).filter fun r => r.openYear.isSome

/-- Total order used by pandas when sorting group keys that may be null:
null (`NaN`) sorts last. -/
def optLE (a b : Option String) : Bool :=
  match a, b with
  | some x, some y => strLE x y
  | some _, none => true
  | none, some _ => false
  | none, none => true

/-- Lexicographic order on (year bin, flag) pairs, nulls last in the
second component. -/
def pairLE (a b : String × Option String) : Bool :=
  if strLE a.1 b.1 && strLE b.1 a.1 then optLE a.2 b.2 else strLE a.1 b.1

/-- The `groupby(["Year Bin", "Reg E Flag"], dropna=False)` result
(line 629): one row per observed (year bin, flag) pair — including pairs
whose flag is null — with that group's own row count. -/
def pivotRaw (t : List Rec) : List ((String × Option String) × ℚ) :=
  let rows := histRows t
  let keys := List.insertionSort (fun a b => pairLE a b = true)
    (rows.map fun r => (yearBinOf r, r.regE)).dedup
  keys.map fun k => (k, ((rows.filter fun r => (yearBinOf r, r.regE) == k).length : ℚ))

/-- `sorted(...)` over the pivot's column labels (line 632).  The
`c is not None` filter does not remove a pandas `NaN` label, so when a
null flag coexists with string flags Python compares `float` with `str`
and raises `TypeError`; otherwise the labels are sorted. -/
def pySortedFlags (l : List (Option String)) :
    Except String (List (Option String)) :=
  if l.contains none && l.any (fun x => x.isSome) then
    Except.error "TypeError: '<' not supported between instances of 'float' and 'str'"
  else
    Except.ok (List.insertionSort (fun a b => optLE a b = true) l)

/-- The opt-in column choice (line 637):
`"Y" if "Y" in reg_e_flags else (reg_e_flags[0] if reg_e_flags else None)`. -/
def optInColumnFlag (flags : List (Option String)) : Option (Option String) :=
  if flags.contains (some "Y") then some (some "Y") else flags.head?

/-- Python truthiness of the chosen flag label (`if opt_in_flag:`):
`None` is falsy, `NaN` and non-empty strings are truthy. -/
def flagTruthy : Option String → Bool
  | none => true
  | some s => !(s == "")

/-- Opt-in percentage with the zero-denominator guard of lines 639–640:
the zero count is replaced by null, the division yields null, and
`fillna(0)` turns it into a defined zero. -/
def optInPctOf (y denom : ℚ) : ℚ := if denom = 0 then 0 else y / denom * 100

/-- The declared categorical sort order of the final table (line 663). -/
def sortOrder : List String :=
  ["<2010"] ++ ((List.range 16).map fun i => toString (2010 + i)) ++
    ["2025+", "Unknown", "Grand Total"]

/-- Categorical sort key: position in `sortOrder`; labels outside the
declared categories become null and sort after everything (`indexOf`
returns the list length). -/
def catKey (s : String) : ℕ := List.indexOf s sortOrder

structure Row15 where
  yearOpened : String
  flagCounts : List ℚ
  nAccounts : ℚ
  optInPct : ℚ
deriving DecidableEq

/-- The count of one (year bin, flag) cell of the pivot. -/
def cnt15 (rows : List Rec) (yb : String) (fl : Option String) : ℚ :=
  ((rows.filter fun r => yearBinOf r == yb && r.regE == fl).length : ℚ)

/-- One pivot row (lines 630–640): per-flag counts in column order, the
row total `# of Accounts` (line 634), and the opt-in percentage with its
zero-denominator guard (lines 637–642). -/
def mkRow15 (rows : List Rec) (flags : List (Option String)) (yb : String) : Row15 :=
  { yearOpened := yb
    flagCounts := flags.map fun fl => cnt15 rows yb fl
    nAccounts := (flags.map fun fl => cnt15 rows yb fl).sum
    optInPct :=
      match optInColumnFlag flags with
      | some fl =>
          if flagTruthy fl then
            optInPctOf (cnt15 rows yb fl) (flags.map fun f2 => cnt15 rows yb f2).sum
          else 0
      | none => 0 }

/-- The observed year bins, sorted — the pivot's index. -/
def yearBins15 (rows : List Rec) : List String := sortStrs (rows.map yearBinOf).dedup

/-- The pivot body: one row per observed year bin. -/
def body15 (rows : List Rec) (flags : List (Option String)) : List Row15 :=
  (yearBins15 rows).map fun yb => mkRow15 rows flags yb

/-- The grand-total row `grand_total_hist` (lines 644–648): every numeric
column summed over the body rows; the opt-in percentage then recomputed
from the summed counts (when an opt-in column was chosen). -/
def gt15 (rows : List Rec) (flags : List (Option String)) : Row15 :=
  { yearOpened := "Grand Total"
    flagCounts := flags.map fun fl => ((yearBins15 rows).map fun yb => cnt15 rows yb fl).sum
    nAccounts := ((body15 rows flags).map (·.nAccounts)).sum
    optInPct :=
      match optInColumnFlag flags with
      | some fl =>
          if flagTruthy fl then
            (if ((body15 rows flags).map (·.nAccounts)).sum = 0 then 0
             else ((yearBins15 rows).map fun yb => cnt15 rows yb fl).sum
                    / ((body15 rows flags).map (·.nAccounts)).sum * 100)
          else ((body15 rows flags).map (·.optInPct)).sum
      | none => ((body15 rows flags).map (·.optInPct)).sum }

/-- The finished table for a successfully sorted flag list: grand total
appended (line 649), the percentage column rounded to one decimal
(line 655), and the rows sorted by the `Year Opened` categorical whose
declared order ends with `"Grand Total"` (lines 663–665).  Labels outside
the declared categories would become null and sort after everything. -/
def table15 (rows : List Rec) (flags : List (Option String)) : List Row15 :=
  List.insertionSort (fun a b => catKey a.yearOpened ≤ catKey b.yearOpened)
    (((body15 rows flags) ++ [gt15 rows flags]).map fun row =>
      { row with optInPct := roundTo 1 row.optInPct })

/-- Analysis 15: fails (as the script does, line 632) when the flag labels
are not mutually comparable; otherwise builds the pivot table. -/
def analysis15 (t : List Rec) : Except String (List Row15) :=
  match pySortedFlags ((histRows t).map (·.regE)).dedup with
  | .error e => .error e
  | .ok flags => .ok (table15 (histRows t) flags)

/-! ### The script (module-level sequence, §4 of the source)

The fifteen analyses run in a single module-level sequence with no
per-analysis `try`/`except`; an exception anywhere propagates and the
script dies before rendering any output.  `runScript` is that sequence
restricted to the analyses embedded here. -/

structure Reports where
  a1 : List Row1
  a7 : List Row7
  a9 : List Row9
  a13 : List Row13
  a15 : List Row15
deriving DecidableEq

/-- The whole run: every analysis in sequence, the report bundle at the
end.  The only fallible step is analysis 15; its error propagates
uncaught, exactly as an exception aborts the module-level script. -/
def runScript (t : List Rec) : Except String Reports :=
  match analysis15 t with
  | .error e => .error e
  | .ok s15 =>
      .ok { a1 := analysis1 t, a7 := analysis7 t, a9 := analysis9 t,
            a13 := analysis13 t, a15 := s15 }

/-! ### `add_grand_total` (lines 104–115)

The generic helper builds a totals mapping: the label column gets the
total label; a column whose name contains `"%"`, or whose lower-cased name
contains `"Ratio"`, or whose name contains `"Avg"`, `"Average"` or `"Med"`,
gets `np.nan` as a placeholder that is never replaced; every other column
gets its sum. -/

/-- A cell of the totals mapping: a label, a number, or `np.nan`. -/
inductive Cell where
  | strVal (s : String)
  | numVal (q : ℚ)
  | nanVal
deriving DecidableEq

/-- Python's `pat in s` substring test. -/
def strContains (s pat : String) : Bool := decide (pat.data <:+: s.data)

/-- ASCII lower-casing of one character, as `str.lower` acts on the
column names in play. -/
def lowerChar (c : Char) : Char :=
  match c with
  | 'A' => 'a' | 'B' => 'b' | 'C' => 'c' | 'D' => 'd' | 'E' => 'e' | 'F' => 'f'
  | 'G' => 'g' | 'H' => 'h' | 'I' => 'i' | 'J' => 'j' | 'K' => 'k' | 'L' => 'l'
  | 'M' => 'm' | 'N' => 'n' | 'O' => 'o' | 'P' => 'p' | 'Q' => 'q' | 'R' => 'r'
  | 'S' => 's' | 'T' => 't' | 'U' => 'u' | 'V' => 'v' | 'W' => 'w' | 'X' => 'x'
  | 'Y' => 'y' | 'Z' => 'z'
  | other => other

/-- Python's `s.lower()`. -/
def pyLower (s : String) : String := ⟨s.data.map lowerChar⟩

/-- The percentage/ratio/average test of line 110:
`"%" in col or "Ratio" in col.lower() or "Avg" in col or "Average" in col
or "Med" in col`. -/
def pctLike (col : String) : Bool :=
  strContains col "%" || strContains (pyLower col) "Ratio" ||
    strContains col "Avg" || strContains col "Average" || strContains col "Med"

/-- `add_grand_total(summary_df, label_col, label)`: the totals mapping,
one output cell per column.  Columns are (name, values) pairs; the label
column's values are irrelevant to the result. -/
def add_grand_total (cols : List (String × List ℚ)) (label_col : String)
    (label : String) : List (String × Cell) :=
  cols.map fun c =>
    if c.1 == label_col then (c.1, Cell.strVal label)
    else if pctLike c.1 then (c.1, Cell.nanVal)
    else (c.1, Cell.numVal c.2.sum)

/-! ### Concrete tables used to exercise the analyses

Small input tables (personal open accounts unless noted) on which the
theorems below are instantiated. -/

/-- A personal open account with no OD/NSF items, flag `"Y"`, opened 2013. -/
def rZero : Rec :=
  { acctNo := 1, accountStatus := "O", businessFlag := "P", odStatus := "A",
    regE := some "Y", totalItems := 0, paidItems := 0, odLimit := 0,
    depositCount := 0, depositAmount := 0, swipes := 0, openYear := some 2013 }

/-- A personal open account with 100 items presented and 40 paid. -/
def rBig : Rec :=
  { rZero with acctNo := 2, totalItems := 100, paidItems := 40 }

/-- A personal open account whose Reg E flag is null. -/
def rNullFlag : Rec := { rZero with acctNo := 3, regE := none }

/-- A personal open account with flag `"N"`. -/
def rFlagN : Rec := { rZero with acctNo := 4, regE := some "N" }

/-- A closed personal account with 2 items, 1 paid. -/
def rClosed : Rec :=
  { rZero with acctNo := 5, accountStatus := "C", totalItems := 2, paidItems := 1 }

/-- Scenario C: two groups, items presented `[100, 0]`, items paid `[40, 0]`. -/
def scenarioC : List Rec := [rBig, rZero]

/-- Scenario D: 20 personal open rows, Reg E flag null in 3 of them. -/
def scenarioD : List Rec :=
  List.replicate 10 rZero ++ List.replicate 7 rFlagN ++ List.replicate 3 rNullFlag

/-- A table whose personal open dated rows carry both a null flag and a
string flag — the input on which analysis 15 dies. -/
def mixedFlagTbl : List Rec := [rZero, rNullFlag]

/-- A one-row table on which every analysis succeeds. -/
def oneRowTbl : List Rec := [rZero]

/-- Four accounts: two open, two closed. -/
def statusTbl : List Rec := [rZero, rZero, rClosed, rClosed]

theorem abs_rnd_sub_le (x : ℚ) : |(rnd x : ℚ) - x| ≤ 1 / 2 := by
  have hfr : (⌊x⌋ : ℚ) = x - Int.fract x := by
    have := Int.self_sub_floor x
    linarith [this]
  have h0 : 0 ≤ Int.fract x := Int.fract_nonneg x
  have h1 : Int.fract x < 1 := Int.fract_lt_one x
  unfold rnd
  by_cases hlt : Int.fract x < 1 / 2
  · rw [if_pos hlt]
    rw [hfr, abs_le]
    constructor <;> linarith
  · rw [if_neg hlt]
    by_cases hgt : 1 / 2 < Int.fract x
    · rw [if_pos hgt]
      push_cast
      rw [hfr, abs_le]
      constructor <;> linarith
    · rw [if_neg hgt]
      have heq : Int.fract x = 1 / 2 := by linarith [not_lt.mp hlt, not_lt.mp hgt]
      by_cases hdvd : 2 ∣ ⌊x⌋
      · rw [if_pos hdvd, hfr, heq, abs_le]
        constructor <;> linarith
      · rw [if_neg hdvd]
        push_cast
        rw [hfr, heq, abs_le]
        constructor <;> linarith

theorem rnd_intCast (n : ℤ) : rnd (n : ℚ) = n := by
  unfold rnd
  rw [Int.fract_intCast]
  norm_num

theorem roundTo_eq_of_mul (p : ℕ) (x : ℚ) (n : ℤ) (h : x * 10 ^ p = (n : ℚ)) :
    roundTo p x = (n : ℚ) / 10 ^ p := by
  unfold roundTo
  rw [h, rnd_intCast]

theorem abs_roundTo_sub_le (p : ℕ) (x : ℚ) : |roundTo p x - x| ≤ 1 / 2 / 10 ^ p := by
  have hp : (0 : ℚ) < 10 ^ p := by positivity
  have hx : roundTo p x - x = ((rnd (x * 10 ^ p) : ℚ) - x * 10 ^ p) / 10 ^ p := by
    unfold roundTo
    field_simp
    ring
  rw [hx, abs_div, abs_of_pos hp]
  exact div_le_div_of_nonneg_right (abs_rnd_sub_le (x * 10 ^ p)) (le_of_lt hp)

theorem bndLt_trans {a b c : Bnd} (h1 : bndLt a b = true) (h2 : bndLt b c = true) :
    bndLt a c = true := by
  cases a <;> cases b <;> cases c <;> simp_all [bndLt] <;> linarith

theorem bndLtQ_of_bndLt_of_bndLtQ {a b : Bnd} {v : ℚ} (h1 : bndLt a b = true)
    (h2 : bndLtQ b v = true) : bndLtQ a v = true := by
  cases a <;> cases b <;> simp_all [bndLt, bndLtQ] <;> linarith

theorem not_bndLtQ_and_qLeBnd {b : Bnd} {v : ℚ} (h1 : bndLtQ b v = true)
    (h2 : qLeBnd v b = true) : False := by
  cases b <;> simp_all [bndLtQ, qLeBnd] <;> linarith

theorem bndLtQ_of_not_qLeBnd {b : Bnd} {v : ℚ} (h : qLeBnd v b = false) :
    bndLtQ b v = true := by
  cases b <;> simp_all [bndLtQ, qLeBnd]

theorem qLeBnd_of_qLeBnd_of_bndLt {a b : Bnd} {v : ℚ} (h1 : qLeBnd v a = true)
    (h2 : bndLt a b = true) : qLeBnd v b = true := by
  cases a <;> cases b <;> simp_all [bndLt, qLeBnd] <;> linarith





theorem cutGoIdx_le {v : ℚ} :
    ∀ (bins : List Bnd) (lo : Bnd) (n m : ℕ), cutGoIdx lo bins v n = some m → n ≤ m := by
  intro bins
  induction bins with
  | nil => intro lo n m h; simp [cutGoIdx] at h
  | cons hi rest ih =>
    intro lo n m h
    rw [cutGoIdx] at h
    by_cases hc : (bndLtQ lo v && qLeBnd v hi) = true
    · rw [if_pos hc] at h
      exact le_of_eq (Option.some.inj h)
    · rw [if_neg hc] at h
      have := ih hi (n + 1) m h
      omega

theorem cutGoIdx_eq_some_iff {v : ℚ} :
    ∀ (bins : List Bnd) (lo : Bnd) (n i : ℕ),
      BndSorted (lo :: bins) →
      (cutGoIdx lo bins v n = some (n + i) ↔
        ∃ h : i + 1 < (lo :: bins).length,
          bndLtQ ((lo :: bins).get ⟨i, Nat.lt_of_succ_lt h⟩) v = true ∧
          qLeBnd v ((lo :: bins).get ⟨i + 1, h⟩) = true) := by
  intro bins
  induction bins with
  | nil =>
    intro lo n i _
    simp [cutGoIdx]
  | cons hi rest ih =>
    intro lo n i hch
    haveI : IsTrans Bnd (fun a b => bndLt a b = true) := ⟨fun _ _ _ => bndLt_trans⟩
    have hpw : List.Pairwise (fun a b => bndLt a b = true) (lo :: hi :: rest) :=
      List.chain'_iff_pairwise.mp hch
    rw [cutGoIdx]
    by_cases hc : (bndLtQ lo v && qLeBnd v hi) = true
    · rw [if_pos hc]
      obtain ⟨hlo, hhi⟩ := Bool.and_eq_true_iff.mp hc
      constructor
      · intro h
        have hi0 : i = 0 := by
          have := Option.some.inj h
          omega
        subst hi0
        exact ⟨by simp, hlo, hhi⟩
      · intro ⟨hlen, hlt, hle⟩
        have hi0 : i = 0 := by
          by_contra hne
          obtain ⟨j, rfl⟩ : ∃ j, i = j + 1 := ⟨i - 1, by omega⟩
          -- the lower edge of interval j+1 is an edge at position ≥ 1, hence ≥ hi
          have hget : (lo :: hi :: rest).get ⟨j + 1, Nat.lt_of_succ_lt hlen⟩ =
              (hi :: rest).get ⟨j, by simpa using Nat.lt_of_succ_lt hlen⟩ := rfl
          have hgev : bndLtQ ((hi :: rest).get ⟨j, by simpa using Nat.lt_of_succ_lt hlen⟩) v
              = true := by rw [← hget]; exact hlt
          have hhiv : bndLtQ hi v = true := by
            rcases Nat.eq_zero_or_pos j with hj0 | hjpos
            · subst hj0; simpa using hgev
            · have hrel := (List.pairwise_iff_get.mp hpw)
                ⟨1, by simp⟩ ⟨j + 1, by simpa using Nat.lt_of_succ_lt hlen⟩
                (by simp only [Fin.lt_def]; omega)
              have : bndLt hi ((hi :: rest).get ⟨j, by simpa using Nat.lt_of_succ_lt hlen⟩)
                  = true := by simpa using hrel
              exact bndLtQ_of_bndLt_of_bndLtQ this hgev
          exact not_bndLtQ_and_qLeBnd hhiv hhi
        subst hi0
        simp
    · rw [if_neg hc]
      rcases Nat.eq_zero_or_pos i with hi0 | hipos
      · subst hi0
        constructor
        · intro h
          have := cutGoIdx_le rest hi (n + 1) (n + 0) h
          omega
        · intro ⟨hlen, hlt, hle⟩
          exact absurd (Bool.and_eq_true_iff.mpr ⟨by simpa using hlt, by simpa using hle⟩) hc
      · obtain ⟨j, rfl⟩ : ∃ j, i = j + 1 := ⟨i - 1, by omega⟩
        have heq : n + (j + 1) = (n + 1) + j := by omega
        rw [heq, ih hi (n + 1) j hch.tail]
        constructor
        · intro ⟨hlen, hlt, hle⟩
          exact ⟨by simpa using Nat.succ_lt_succ hlen, hlt, hle⟩
        · intro ⟨hlen, hlt, hle⟩
          exact ⟨by simpa using Nat.lt_of_succ_lt_succ hlen, hlt, hle⟩

/-- Characterization of `pd.cut`'s bin index for a strictly increasing edge
list: `v` falls in bin `i` iff `bins[i] < v ≤ bins[i+1]`. -/
theorem pdCutIdx_eq_some_iff (bins : List Bnd) (v : ℚ) (i : ℕ) (hch : BndSorted bins) :
    pdCutIdx bins v = some i ↔
      ∃ h : i + 1 < bins.length,
        bndLtQ (bins.get ⟨i, Nat.lt_of_succ_lt h⟩) v = true ∧
        qLeBnd v (bins.get ⟨i + 1, h⟩) = true := by
  match bins with
  | [] => simp [pdCutIdx]
  | b0 :: rest =>
    rw [pdCutIdx]
    have := cutGoIdx_eq_some_iff (v := v) rest b0 0 i hch
    simpa using this

theorem cutGoIdx_eq_none_of_le {v : ℚ} :
    ∀ (bins : List Bnd) (lo : Bnd) (n : ℕ),
      BndSorted (lo :: bins) → qLeBnd v lo = true → cutGoIdx lo bins v n = none := by
  intro bins
  induction bins with
  | nil => intro lo n _ _; rfl
  | cons hi rest ih =>
    intro lo n hch hv
    have hn : bndLtQ lo v = false := by
      cases hlt : bndLtQ lo v
      · rfl
      · exact (not_bndLtQ_and_qLeBnd hlt hv).elim
    have hrel : bndLt lo hi = true := (List.chain'_cons.mp hch).1
    rw [cutGoIdx, hn]
    simp only [Bool.false_and, if_false]
    exact ih hi (n + 1) hch.tail (qLeBnd_of_qLeBnd_of_bndLt hv hrel)

/-- A value at or below the first edge falls in no bin (it becomes null). -/
theorem pdCutIdx_eq_none_of_le_head (b0 : Bnd) (rest : List Bnd) (v : ℚ)
    (hch : BndSorted (b0 :: rest)) (hv : qLeBnd v b0 = true) :
    pdCutIdx (b0 :: rest) v = none := by
  rw [pdCutIdx]
  exact cutGoIdx_eq_none_of_le rest b0 0 hch hv

theorem cutGoIdx_isSome_of_last_inf {v : ℚ} :
    ∀ (bins : List Bnd) (lo : Bnd) (n : ℕ),
      bins.getLast? = some Bnd.inf → bndLtQ lo v = true →
      (cutGoIdx lo bins v n).isSome = true := by
  intro bins
  induction bins with
  | nil => intro lo n hlast _; simp at hlast
  | cons hi rest ih =>
    intro lo n hlast hlo
    rw [cutGoIdx]
    match rest, hlast with
    | [], hlast =>
      have : hi = Bnd.inf := by simpa using hlast
      subst this
      rw [if_pos (by simp [hlo, qLeBnd])]
      rfl
    | x :: rest, hlast =>
      by_cases hc : (bndLtQ lo v && qLeBnd v hi) = true
      · rw [if_pos hc]; rfl
      · rw [if_neg hc]
        have hle : qLeBnd v hi = false := by
          cases h2 : qLeBnd v hi
          · rfl
          · exact absurd (Bool.and_eq_true_iff.mpr ⟨hlo, h2⟩) hc
        exact ih hi (n + 1) (by simpa using hlast) (bndLtQ_of_not_qLeBnd hle)

/-- When the last edge is `inf`, every value above the first edge is binned. -/
theorem pdCutIdx_isSome (b0 : Bnd) (rest : List Bnd) (v : ℚ) (hne : rest ≠ [])
    (hlast : rest.getLast? = some Bnd.inf) (hlo : bndLtQ b0 v = true) :
    (pdCutIdx (b0 :: rest) v).isSome = true := by
  rw [pdCutIdx]
  exact cutGoIdx_isSome_of_last_inf rest b0 0 hlast hlo

/-- The label produced by `pdCut` is one of the given labels. -/
theorem pdCut_mem_labels {bins : List Bnd} {labels : List String} {v : ℚ} {l : String}
    (h : pdCut bins labels v = some l) : l ∈ labels := by
  unfold pdCut at h
  match hidx : pdCutIdx bins v with
  | none => rw [hidx] at h; simp at h
  | some i =>
    rw [hidx] at h
    rw [Option.some_bind] at h
    exact List.getElem?_mem h

/-! ### Generic grouping lemmas

`groupby` partitions the rows by key; summing a column per group and then
over the groups gives the column total, provided the key list is
duplicate-free and covers every row. -/

theorem sum_map_ite_filter {κ : Type} [BEq κ] [LawfulBEq κ]
    (rows : List Rec) (key : Rec → κ) (k : κ) (f : Rec → ℚ) :
    (((rows.filter fun r => key r == k).map f).sum)
      = (rows.map fun r => if key r == k then f r else 0).sum := by
  induction rows with
  | nil => simp
  | cons r rest ih =>
    by_cases h : (key r == k) = true
    · simp [List.filter_cons, h, ih]
    · simp [List.filter_cons, h, ih]

theorem sum_map_ite_eq_zero {κ : Type} [BEq κ] [LawfulBEq κ]
    (keys : List κ) (k0 : κ) (c : ℚ) (h : k0 ∉ keys) :
    (keys.map fun k => if k0 == k then c else 0).sum = 0 := by
  induction keys with
  | nil => simp
  | cons k ks ih =>
    have h1 : (k0 == k) = false := by
      simp only [beq_eq_false_iff_ne]
      intro he
      exact h (he ▸ List.mem_cons_self k ks)
    simp [h1, ih fun hm => h (List.mem_cons_of_mem k hm)]

theorem sum_map_ite_eq {κ : Type} [BEq κ] [LawfulBEq κ]
    (keys : List κ) (k0 : κ) (c : ℚ) (hnd : keys.Nodup) (hm : k0 ∈ keys) :
    (keys.map fun k => if k0 == k then c else 0).sum = c := by
  induction keys with
  | nil => simp at hm
  | cons k ks ih =>
    rcases List.mem_cons.mp hm with he | hm2
    · subst he
      simp only [List.map_cons, List.sum_cons, beq_self_eq_true, if_true]
      rw [sum_map_ite_eq_zero ks k0 c (List.nodup_cons.mp hnd).1]
      ring
    · have hne : (k0 == k) = false := by
        simp only [beq_eq_false_iff_ne]
        intro he
        exact (List.nodup_cons.mp hnd).1 (he ▸ hm2)
      simp [hne, ih (List.nodup_cons.mp hnd).2 hm2]

theorem sum_map_add_distrib {κ : Type} (l : List κ) (f g : κ → ℚ) :
    (l.map fun k => f k + g k).sum = (l.map f).sum + (l.map g).sum := by
  induction l with
  | nil => simp
  | cons k ks ih => simp only [List.map_cons, List.sum_cons, ih]; ring

/-- Key partition: per-group sums add up to the whole-population sum. -/
theorem sum_groups {κ : Type} [BEq κ] [LawfulBEq κ]
    (keys : List κ) (key : Rec → κ) (rows : List Rec) (f : Rec → ℚ)
    (hnd : keys.Nodup) (hmem : ∀ r ∈ rows, key r ∈ keys) :
    (keys.map fun k => ((rows.filter fun r => key r == k).map f).sum).sum
      = (rows.map f).sum := by
  induction rows with
  | nil => simp
  | cons r rest ih =>
    have hsplit : ∀ k : κ,
        (((r :: rest).filter fun x => key x == k).map f).sum
          = (if key r == k then f r else 0)
            + ((rest.filter fun x => key x == k).map f).sum := by
      intro k
      by_cases h : (key r == k) = true
      · simp [List.filter_cons, h]
      · simp [List.filter_cons, h]
    calc (keys.map fun k => (((r :: rest).filter fun x => key x == k).map f).sum).sum
        = (keys.map fun k => (if key r == k then f r else 0)
            + ((rest.filter fun x => key x == k).map f).sum).sum := by
          congr 1
          exact List.map_congr_left fun k _ => hsplit k
      _ = (keys.map fun k => if key r == k then f r else 0).sum
            + (keys.map fun k => ((rest.filter fun x => key x == k).map f).sum).sum :=
          sum_map_add_distrib keys _ _
      _ = f r + (rest.map f).sum := by
          rw [sum_map_ite_eq keys (key r) (f r) hnd (hmem r (List.mem_cons_self r rest)),
            ih fun x hx => hmem x (List.mem_cons_of_mem r hx)]
      _ = ((r :: rest).map f).sum := by simp

/-- A list's length, as the sum of ones. -/
theorem length_eq_sum_ones (l : List Rec) :
    ((l.map fun _ => (1 : ℚ)).sum) = (l.length : ℚ) := by
  induction l with
  | nil => simp
  | cons r rest ih => simp [ih]; ring

/-- Count partition: per-group row counts add up to the population size. -/
theorem count_groups {κ : Type} [BEq κ] [LawfulBEq κ]
    (keys : List κ) (key : Rec → κ) (rows : List Rec)
    (hnd : keys.Nodup) (hmem : ∀ r ∈ rows, key r ∈ keys) :
    (keys.map fun k => (((rows.filter fun r => key r == k).length : ℚ))).sum
      = (rows.length : ℚ) := by
  have h := sum_groups keys key rows (fun _ => (1 : ℚ)) hnd hmem
  rw [length_eq_sum_ones] at h
  rw [← h]
  congr 1
  exact List.map_congr_left fun k _ => (length_eq_sum_ones _).symm

/-! ### Group-key and bin-coverage lemmas -/

theorem nodup_groupKeys (t : List Rec) (key : Rec → String) : (groupKeys t key).Nodup := by
  unfold groupKeys sortStrs
  exact ((List.perm_insertionSort _ _).nodup_iff).mpr (List.nodup_dedup _)

theorem mem_groupKeys {t : List Rec} {key : Rec → String} {r : Rec} (hr : r ∈ t) :
    key r ∈ groupKeys t key := by
  unfold groupKeys sortStrs
  exact ((List.perm_insertionSort _ _).mem_iff).mpr
    (List.mem_dedup.mpr (List.mem_map_of_mem key hr))

/-- Every total OD/NSF item count above the lowest edge is binned, with a
label from the declared list. -/
theorem nsfBinOf_isSome {r : Rec} (h : (-1 : ℚ) < r.totalItems) :
    ∃ lab ∈ NSF_LABELS, nsfBinOf r = some lab := by
  have hlo : bndLtQ (Bnd.fin (-1)) r.totalItems = true := by
    simp [bndLtQ, h]
  have hsome := pdCutIdx_isSome (Bnd.fin (-1))
    [Bnd.fin 0, Bnd.fin 6, Bnd.fin 12, Bnd.fin 24, Bnd.fin 36, Bnd.fin 48, Bnd.inf]
    r.totalItems (by simp) (by rfl) hlo
  obtain ⟨i, hi⟩ := Option.isSome_iff_exists.mp hsome
  have hch : BndSorted NSF_BINS := by
    unfold BndSorted NSF_BINS
    simp only [List.chain'_cons, List.chain'_singleton, bndLt, and_true, decide_eq_true_eq]
    norm_num
  have hbound := (pdCutIdx_eq_some_iff NSF_BINS r.totalItems i hch).mp (by exact hi)
  obtain ⟨hlen, -, -⟩ := hbound
  have hilt : i < NSF_LABELS.length := by
    simp only [NSF_BINS, List.length] at hlen
    simp only [NSF_LABELS, List.length]
    omega
  refine ⟨NSF_LABELS.get ⟨i, hilt⟩, List.get_mem _ _ _, ?_⟩
  unfold nsfBinOf pdCut
  rw [show pdCutIdx NSF_BINS r.totalItems = some i from hi, Option.some_bind]
  exact List.getElem?_eq_getElem hilt

/-- Dropping empty groups does not change a sum of per-group values that
vanish on empty groups. -/
theorem sum_filter_nonempty (l : List (String × List Rec)) (F : String × List Rec → ℚ)
    (h : ∀ g ∈ l, g.2 = [] → F g = 0) :
    (((l.filter fun g => !g.2.isEmpty).map F).sum) = ((l.map F).sum) := by
  induction l with
  | nil => simp
  | cons g gs ih =>
    by_cases hg : g.2.isEmpty = true
    · have hz : F g = 0 := h g (List.mem_cons_self g gs) (List.isEmpty_iff.mp hg)
      simp [List.filter_cons, hg, hz,
        ih fun x hx hxe => h x (List.mem_cons_of_mem g hx) hxe]
    · simp [List.filter_cons, hg,
        ih fun x hx hxe => h x (List.mem_cons_of_mem g hx) hxe]

/-- Bin partition: with full coverage, per-bin sums add to the population sum. -/
theorem sum_binGroups (labels : List String) (bin : Rec → Option String)
    (rows : List Rec) (f : Rec → ℚ) (hnd : labels.Nodup)
    (hcov : ∀ r ∈ rows, ∃ lab ∈ labels, bin r = some lab) :
    ((binGroups labels bin rows).map fun g => (g.2.map f).sum).sum = (rows.map f).sum := by
  unfold binGroups
  rw [sum_filter_nonempty _ _ (by intro g _ hge; rw [hge]; simp)]
  have hkey := sum_groups (labels.map some) bin rows f
    (hnd.map (fun a b h => Option.some.inj h))
    (by
      intro r hr
      obtain ⟨lab, hmem, heq⟩ := hcov r hr
      rw [heq]
      exact List.mem_map_of_mem some hmem)
  rw [← hkey, List.map_map, List.map_map]
  rfl

/-- Bin partition for row counts. -/
theorem count_binGroups (labels : List String) (bin : Rec → Option String)
    (rows : List Rec) (hnd : labels.Nodup)
    (hcov : ∀ r ∈ rows, ∃ lab ∈ labels, bin r = some lab) :
    ((binGroups labels bin rows).map fun g => ((g.2.length : ℚ))).sum
      = (rows.length : ℚ) := by
  have h := sum_binGroups labels bin rows (fun _ => (1 : ℚ)) hnd hcov
  rw [length_eq_sum_ones] at h
  rw [← h]
  congr 1
  exact List.map_congr_left fun g _ => (length_eq_sum_ones _).symm

/-! ### Percentage-closure arithmetic -/

theorem list_abs_sum_le (l : List ℚ) : |l.sum| ≤ (l.map fun x => |x|).sum := by
  induction l with
  | nil => simp
  | cons a rest ih =>
    simp only [List.sum_cons, List.map_cons]
    calc |a + rest.sum| ≤ |a| + |rest.sum| := abs_add _ _
      _ ≤ |a| + (rest.map fun x => |x|).sum := by linarith

theorem list_sum_le_length_mul (l : List ℚ) (B : ℚ) (h : ∀ x ∈ l, x ≤ B) :
    l.sum ≤ (l.length : ℚ) * B := by
  induction l with
  | nil => simp
  | cons a rest ih =>
    have ha := h a (List.mem_cons_self a rest)
    have hr := ih fun x hx => h x (List.mem_cons_of_mem a hx)
    simp only [List.sum_cons, List.length_cons]
    push_cast
    linarith

theorem sum_map_sub_distrib {κ : Type} (l : List κ) (f g : κ → ℚ) :
    (l.map fun k => f k - g k).sum = (l.map f).sum - (l.map g).sum := by
  induction l with
  | nil => simp
  | cons k ks ih => simp only [List.map_cons, List.sum_cons, ih]; ring

theorem sum_map_div_mul (xs : List ℚ) (t c : ℚ) :
    (xs.map fun x => x / t * c).sum = xs.sum / t * c := by
  induction xs with
  | nil => simp
  | cons x rest ih => simp only [List.map_cons, List.sum_cons, ih]; ring

/-- Rounding each percent-of-total to `p` decimals moves their sum away
from 100 by at most `n · 10^(-p)`. -/
theorem pct_closure (xs : List ℚ) (p : ℕ) (h : xs.sum ≠ 0) :
    |(xs.map fun c => roundTo p (c / xs.sum * 100)).sum - 100|
      ≤ (xs.length : ℚ) * (1 / 10 ^ p) := by
  have hexact : (xs.map fun c => c / xs.sum * 100).sum = 100 := by
    rw [sum_map_div_mul, div_self h]
    ring
  have hsub : (xs.map fun c => roundTo p (c / xs.sum * 100)).sum - 100
      = (xs.map fun c => roundTo p (c / xs.sum * 100) - c / xs.sum * 100).sum := by
    rw [sum_map_sub_distrib, hexact]
  rw [hsub]
  calc |(xs.map fun c => roundTo p (c / xs.sum * 100) - c / xs.sum * 100).sum|
      ≤ ((xs.map fun c => roundTo p (c / xs.sum * 100) - c / xs.sum * 100).map
          fun x => |x|).sum := list_abs_sum_le _
    _ ≤ (((xs.map fun c => roundTo p (c / xs.sum * 100) - c / xs.sum * 100).map
          fun x => |x|).length : ℚ) * (1 / 2 / 10 ^ p) := by
        refine list_sum_le_length_mul _ _ ?_
        intro x hx
        obtain ⟨y, hy, rfl⟩ := List.mem_map.mp hx
        obtain ⟨c, hc, rfl⟩ := List.mem_map.mp hy
        exact abs_roundTo_sub_le p _
    _ ≤ (xs.length : ℚ) * (1 / 10 ^ p) := by
        simp only [List.length_map]
        have hp : (0 : ℚ) ≤ 1 / 10 ^ p := by positivity
        have hn : (0 : ℚ) ≤ (xs.length : ℚ) := by positivity
        have hhalf : (1 : ℚ) / 2 / 10 ^ p ≤ 1 / 10 ^ p := by
          rw [show (1 : ℚ) / 2 / 10 ^ p = (1 / 10 ^ p) / 2 by ring]
          exact half_le_self hp
        exact mul_le_mul_of_nonneg_left hhalf hn

/-! ### Shapes of the finished tables -/

theorem analysis1_ne_nil (t : List Rec) : analysis1 t ≠ [] := by
  unfold analysis1
  simp

theorem analysis1_getLast (t : List Rec) (h : analysis1 t ≠ []) :
    (analysis1 t).getLast h = gt1 t := by
  unfold analysis1 at h ⊢
  exact List.getLast_concat _

theorem analysis1_dropLast (t : List Rec) :
    (analysis1 t).dropLast = (groupKeys t (·.accountStatus)).map fun s => row1 t s := by
  unfold analysis1
  exact List.dropLast_concat

theorem analysis7_ne_nil (t : List Rec) : analysis7 t ≠ [] := by
  unfold analysis7
  simp

theorem analysis7_getLast (t : List Rec) (h : analysis7 t ≠ []) :
    (analysis7 t).getLast h = gt7 t := by
  unfold analysis7 at h ⊢
  exact List.getLast_concat _

theorem analysis9_ne_nil (t : List Rec) : analysis9 t ≠ [] := by
  unfold analysis9
  simp

theorem analysis9_getLast (t : List Rec) (h : analysis9 t ≠ []) :
    (analysis9 t).getLast h = roundAvgs (gt9 t) := by
  have he : analysis9 t
      = ((gs7 t).map fun g => roundAvgs (row9 t g)) ++ [roundAvgs (gt9 t)] := by
    unfold analysis9
    simp
  revert h
  rw [he]
  intro h
  exact List.getLast_concat _

theorem analysis13_ne_nil (t : List Rec) : analysis13 t ≠ [] := by
  unfold analysis13
  simp

theorem analysis13_getLast (t : List Rec) (h : analysis13 t ≠ []) :
    (analysis13 t).getLast h = gt13 t := by
  unfold analysis13 at h ⊢
  exact List.getLast_concat _

/-! ### C4 — zero-denominator guards -/

/-- **C4.** Wherever a ratio, rate-percent or percentage has a zero
denominator — a group (or grand total) with zero total items in analyses
1, 7 and 9, or a zero account count in the opt-in pivot — the derived
value is the defined zero of the `np.where` / `if` / `fillna(0)` guard:
no division fault, no null, no infinity. -/
theorem claim_C4_zero_guards :
    (∀ (t : List Rec), ∀ row ∈ analysis1 t, row.nItems = 0 → row.payRatio = 0) ∧
    (∀ (t : List Rec), ∀ row ∈ analysis7 t, row.nItems = 0 → row.payRate = 0) ∧
    (∀ (t : List Rec), ∀ row ∈ analysis9 t, row.nItems = 0 → row.payRate = 0) ∧
    (∀ (t : List Rec), ti7 t = 0 → ∀ g ∈ gs7 t, (row7 t g).pctItemsPresented = 0) ∧
    (∀ y : ℚ, optInPctOf y 0 = 0) ∧
    (∀ (t : List Rec), ti1 t = 0 → (gt1 t).payRatio = 0) ∧
    (∀ (t : List Rec), ti7 t = 0 → (gt7 t).payRate = 0) := by
  refine ⟨?_, ?_, ?_, ?_, ?_, ?_, ?_⟩
  · intro t row hrow h0
    unfold analysis1 at hrow
    rcases List.mem_append.mp hrow with hb | hg
    · obtain ⟨s, -, rfl⟩ := List.mem_map.mp hb
      unfold row1 at h0 ⊢
      simp only at h0
      simp [h0]
    · have : row = gt1 t := by simpa using hg
      subst this
      unfold gt1 at h0 ⊢
      simp only at h0
      simp [h0]
  · intro t row hrow h0
    unfold analysis7 at hrow
    rcases List.mem_append.mp hrow with hb | hg
    · obtain ⟨g, -, rfl⟩ := List.mem_map.mp hb
      unfold row7 at h0 ⊢
      simp only at h0
      simp [h0]
    · have : row = gt7 t := by simpa using hg
      subst this
      unfold gt7 at h0 ⊢
      simp only at h0
      simp [h0]
  · intro t row hrow h0
    unfold analysis9 at hrow
    obtain ⟨row0, hrow0, rfl⟩ := List.mem_map.mp hrow
    have h0' : row0.nItems = 0 := by
      unfold roundAvgs at h0
      simpa using h0
    rcases List.mem_append.mp hrow0 with hb | hg
    · obtain ⟨g, -, rfl⟩ := List.mem_map.mp hb
      unfold row9 at h0' ⊢
      simp only at h0'
      unfold roundAvgs
      simp [h0']
    · have : row0 = gt9 t := by simpa using hg
      subst this
      unfold gt9 at h0' ⊢
      simp only at h0'
      unfold roundAvgs
      simp [h0']
  · intro t h0 g _
    unfold row7
    simp [h0]
  · intro y
    unfold optInPctOf
    simp
  · intro t h0
    unfold gt1
    simp [h0]
  · intro t h0
    unfold gt7
    simp [h0]

/-! ### C5 — reconciliation of the grand-total row -/

theorem analysis7_dropLast (t : List Rec) :
    (analysis7 t).dropLast = (gs7 t).map fun g => row7 t g := by
  unfold analysis7
  exact List.dropLast_concat

/-- **C5.** In the account-status report and in the personal NSF report,
every count column of the grand-total row equals the sum of that column
over the non-total rows, and the grand-total `"% of Accounts"` is exactly
`100.0`. -/
theorem claim_C5_reconciliation (t : List Rec) :
    (∃ h : analysis1 t ≠ [],
      ((analysis1 t).getLast h).nAccounts
          = ((analysis1 t).dropLast.map (·.nAccounts)).sum ∧
      ((analysis1 t).getLast h).nItems
          = ((analysis1 t).dropLast.map (·.nItems)).sum ∧
      ((analysis1 t).getLast h).nItemsPaid
          = ((analysis1 t).dropLast.map (·.nItemsPaid)).sum ∧
      ((analysis1 t).getLast h).pctAccounts = 100) ∧
    (∃ h : analysis7 t ≠ [],
      ((analysis7 t).getLast h).nAccounts
          = ((analysis7 t).dropLast.map (·.nAccounts)).sum ∧
      ((analysis7 t).getLast h).nItems
          = ((analysis7 t).dropLast.map (·.nItems)).sum ∧
      ((analysis7 t).getLast h).nItemsPaid
          = ((analysis7 t).dropLast.map (·.nItemsPaid)).sum ∧
      ((analysis7 t).getLast h).pctAccounts = 100) := by
  constructor
  · have hl := analysis1_getLast t (analysis1_ne_nil t)
    have hd := analysis1_dropLast t
    refine ⟨analysis1_ne_nil t, ?_, ?_, ?_, ?_⟩
    · rw [hl, hd]
      show ta1 t = _
      unfold ta1
      rw [List.map_map]
      rfl
    · rw [hl, hd]
      show ti1 t = _
      unfold ti1
      rw [List.map_map]
      rfl
    · rw [hl, hd]
      show tp1 t = _
      unfold tp1
      rw [List.map_map]
      rfl
    · rw [hl]
      unfold gt1
      rfl
  · have hl := analysis7_getLast t (analysis7_ne_nil t)
    have hd := analysis7_dropLast t
    refine ⟨analysis7_ne_nil t, ?_, ?_, ?_, ?_⟩
    · rw [hl, hd]
      show ta7 t = _
      unfold ta7
      rw [List.map_map]
      rfl
    · rw [hl, hd]
      show ti7 t = _
      unfold ti7
      rw [List.map_map]
      rfl
    · rw [hl, hd]
      show tp7 t = _
      unfold tp7
      rw [List.map_map]
      rfl
    · rw [hl]
      unfold gt7
      rfl

/-! ### C9 — determinism -/

/-- **C9.** The whole run is a pure function of the source table: two runs
over equal tables produce equal report bundles. -/
theorem claim_C9_deterministic (t1 t2 : List Rec) (h : t1 = t2) :
    runScript t1 = runScript t2 := by
  rw [h]

/-- Witness for C9 at a concrete table. -/
theorem claim_C9_deterministic_witness :
    runScript oneRowTbl = runScript oneRowTbl :=
  claim_C9_deterministic oneRowTbl oneRowTbl rfl

/-! ### C6 — percentage computation and closure -/

/-- **C6.** Every per-status `"% of Accounts"` is the unrounded group count
divided by the unrounded total of the counts over all groups, times 100,
rounded once to 2 decimals; consequently the non-total percentages sum to
100 within `n · 10⁻²`. -/
theorem claim_C6_pct_closure (t : List Rec) (h : t ≠ []) :
    (∀ row ∈ (analysis1 t).dropLast,
        row.pctAccounts = roundTo 2
          (row.nAccounts / ((analysis1 t).dropLast.map (·.nAccounts)).sum * 100)) ∧
    |((analysis1 t).dropLast.map (·.pctAccounts)).sum - 100|
        ≤ (((analysis1 t).dropLast.length : ℚ)) * (1 / 10 ^ 2) := by
  have hd := analysis1_dropLast t
  have hta : ((groupKeys t (·.accountStatus)).map
      fun s => ((grp1 t s).length : ℚ)).sum = (t.length : ℚ) :=
    count_groups (groupKeys t (·.accountStatus)) (·.accountStatus) t
      (nodup_groupKeys t _) (fun r hr => mem_groupKeys hr)
  have hne0 : ((groupKeys t (·.accountStatus)).map
      fun s => ((grp1 t s).length : ℚ)).sum ≠ 0 := by
    rw [hta]
    simp only [ne_eq, Nat.cast_eq_zero, List.length_eq_zero]
    exact h
  constructor
  · intro row hrow
    rw [hd] at hrow
    obtain ⟨s, -, rfl⟩ := List.mem_map.mp hrow
    rw [hd, List.map_map]
    rfl
  · rw [hd, List.map_map]
    have hmm : (groupKeys t (·.accountStatus)).map ((·.pctAccounts) ∘ fun s => row1 t s)
        = ((groupKeys t (·.accountStatus)).map fun s => ((grp1 t s).length : ℚ)).map
            fun c => roundTo 2
              (c / ((groupKeys t (·.accountStatus)).map
                fun s => ((grp1 t s).length : ℚ)).sum * 100) := by
      rw [List.map_map]
      rfl
    rw [hmm]
    have hcl := pct_closure
      ((groupKeys t (·.accountStatus)).map fun s => ((grp1 t s).length : ℚ)) 2 hne0
    simpa using hcl

/-- Witness for C6 on a four-account table with two statuses. -/
theorem claim_C6_pct_closure_witness :
    |((analysis1 statusTbl).dropLast.map (·.pctAccounts)).sum - 100|
        ≤ (((analysis1 statusTbl).dropLast.length : ℚ)) * (1 / 10 ^ 2) :=
  (claim_C6_pct_closure statusTbl (by simp [statusTbl])).2

/-! ### C2 — the binning rule -/

theorem depBins_sorted : BndSorted DEP_BINS := by
  unfold BndSorted DEP_BINS
  simp only [List.chain'_cons, List.chain'_singleton, bndLt, and_true, decide_eq_true_eq]
  norm_num

/-- **C2 counterexample.** A value at (or below) the first boundary does
not map to the first label: `pd.cut` leaves it unbinned (null). -/
theorem claim_C2_cex :
    pdCut DEP_BINS DEP_LABELS (-1) = none ∧
    pdCut DEP_BINS DEP_LABELS (-1) ≠ some "0" := by
  have hidx : pdCutIdx DEP_BINS (-1) = none := by
    have h := pdCutIdx_eq_none_of_le_head (Bnd.fin (-1))
      [Bnd.fin 0, Bnd.fin 1, Bnd.fin 2, Bnd.fin 5, Bnd.fin 10, Bnd.inf] (-1)
      (by exact depBins_sorted) (by norm_num [qLeBnd])
    exact h
  constructor
  · show (pdCutIdx DEP_BINS (-1)).bind (fun i => DEP_LABELS[i]?) = none
    rw [hidx]
    rfl
  · show ¬ ((pdCutIdx DEP_BINS (-1)).bind (fun i => DEP_LABELS[i]?) = some "0")
    rw [hidx]
    simp

/-- **C2 (amended).** For a strictly increasing boundary list, binning maps
`v` to index `i` iff `boundaries[i] < v ≤ boundaries[i+1]`, and the label
is the `i`-th label; but a value at or below the first boundary maps to
*no* label (it is left null by `pd.cut`), rather than to the first label.
Scenario B holds as stated. -/
theorem claim_C2_binning_amended :
    (∀ (bins : List Bnd) (v : ℚ) (i : ℕ), BndSorted bins →
      (pdCutIdx bins v = some i ↔
        ∃ h : i + 1 < bins.length,
          bndLtQ (bins.get ⟨i, Nat.lt_of_succ_lt h⟩) v = true ∧
          qLeBnd v (bins.get ⟨i + 1, h⟩) = true)) ∧
    (∀ (bins : List Bnd) (labels : List String) (v : ℚ),
      pdCut bins labels v = (pdCutIdx bins v).bind fun i => labels[i]?) ∧
    (∀ (b0 : Bnd) (rest : List Bnd) (v : ℚ), BndSorted (b0 :: rest) →
      qLeBnd v b0 = true → pdCutIdx (b0 :: rest) v = none) ∧
    (([0, 0, 1, 3, 7, 12] : List ℚ).map (pdCut DEP_BINS DEP_LABELS)
      = [some "0", some "0", some "1", some "3–5", some "6–10", some "10+"]) := by
  refine ⟨?_, ?_, ?_, by decide⟩
  · intro bins v i hch
    exact pdCutIdx_eq_some_iff bins v i hch
  · intro bins labels v
    rfl
  · intro b0 rest v hch hv
    exact pdCutIdx_eq_none_of_le_head b0 rest v hch hv

/-- Witness for C2: deposit count 3 falls in bin 3 (`(2, 5]`, label `"3–5"`). -/
theorem claim_C2_binning_amended_witness : pdCutIdx DEP_BINS 3 = some 3 := by
  refine (claim_C2_binning_amended.1 DEP_BINS 3 3 depBins_sorted).mpr ⟨?_, ?_, ?_⟩
  · show 3 + 1 < 7
    omega
  · show bndLtQ (Bnd.fin 2) 3 = true
    norm_num [bndLtQ]
  · show qLeBnd 3 (Bnd.fin 5) = true
    norm_num [qLeBnd]

/-! ### C1 — the grand-total row is recomputed from the full row set -/

theorem nsfBins_sorted : BndSorted NSF_BINS := by
  unfold BndSorted NSF_BINS
  simp only [List.chain'_cons, List.chain'_singleton, bndLt, and_true, decide_eq_true_eq]
  norm_num

/-- **C1.** With every (non-negative) item count above the lowest bin edge,
the analysis-7/9 grand-total row is recomputed from the full unfiltered
personal-open row set: its `"% of Accounts"` and `"% of Items Presented"`
are exactly 100, its account count is the whole population size, its
`"% Pay Rate"` is total paid items over total presented items of the whole
population (never an average of per-bin rates), and each `"Average of X"`
column is the population mean of the unfiltered subset (rounded once for
display). -/
theorem claim_C1_grand_total_recomputed (t : List Rec)
    (hpos : ∀ r ∈ personalOpen t, (-1 : ℚ) < r.totalItems)
    (hne : personalOpen t ≠ []) :
    ∃ h7 : analysis7 t ≠ [], ∃ h9 : analysis9 t ≠ [],
      ((analysis7 t).getLast h7).pctAccounts = 100 ∧
      ((analysis7 t).getLast h7).pctItemsPresented = 100 ∧
      ((analysis7 t).getLast h7).nAccounts = ((personalOpen t).length : ℚ) ∧
      ((analysis7 t).getLast h7).nItems = ((personalOpen t).map (·.totalItems)).sum ∧
      ((analysis7 t).getLast h7).nItemsPaid = ((personalOpen t).map (·.paidItems)).sum ∧
      ((analysis7 t).getLast h7).payRate =
        (if 0 < ((personalOpen t).map (·.totalItems)).sum then
          roundTo 1 (((personalOpen t).map (·.paidItems)).sum
            / ((personalOpen t).map (·.totalItems)).sum * 100)
        else 0) ∧
      ((analysis9 t).getLast h9).avgOdLimit
          = roundTo 2 (meanQ ((personalOpen t).map (·.odLimit))) ∧
      ((analysis9 t).getLast h9).avgSwipes
          = roundTo 2 (meanQ ((personalOpen t).map (·.swipes))) ∧
      ((analysis9 t).getLast h9).avgDepCount
          = roundTo 2 (meanQ ((personalOpen t).map (·.depositCount))) ∧
      ((analysis9 t).getLast h9).avgDepAmount
          = roundTo 2 (meanQ ((personalOpen t).map (·.depositAmount))) := by
  have hcov : ∀ r ∈ personalOpen t, ∃ lab ∈ NSF_LABELS, nsfBinOf r = some lab :=
    fun r hr => nsfBinOf_isSome (hpos r hr)
  have hnd : NSF_LABELS.Nodup := by decide
  have hta : ta7 t = ((personalOpen t).length : ℚ) :=
    count_binGroups NSF_LABELS nsfBinOf (personalOpen t) hnd hcov
  have hti : ti7 t = ((personalOpen t).map (·.totalItems)).sum :=
    sum_binGroups NSF_LABELS nsfBinOf (personalOpen t) _ hnd hcov
  have htp : tp7 t = ((personalOpen t).map (·.paidItems)).sum :=
    sum_binGroups NSF_LABELS nsfBinOf (personalOpen t) _ hnd hcov
  have hl7 := analysis7_getLast t (analysis7_ne_nil t)
  have hl9 := analysis9_getLast t (analysis9_ne_nil t)
  refine ⟨analysis7_ne_nil t, analysis9_ne_nil t, ?_, ?_, ?_, ?_, ?_, ?_, ?_, ?_, ?_, ?_⟩
  · rw [hl7]
    rfl
  · rw [hl7]
    rfl
  · rw [hl7]
    exact hta
  · rw [hl7]
    exact hti
  · rw [hl7]
    exact htp
  · rw [hl7]
    show (if 0 < ti7 t then roundTo 1 (tp7 t / ti7 t * 100) else 0) = _
    rw [hti, htp]
  · rw [hl9]
    rfl
  · rw [hl9]
    rfl
  · rw [hl9]
    rfl
  · rw [hl9]
    rfl

/-- Witness for C1: Scenario C.  Two bin groups with items presented
`[100, 0]` and paid `[40, 0]`: the grand-total pay rate is
`40 / 100 × 100 = 40.0`, the ratio of the population sums, not the average
`20.0` of the per-bin rates. -/
theorem claim_C1_grand_total_recomputed_witness :
    ∃ h7 : analysis7 scenarioC ≠ [],
      ((analysis7 scenarioC).getLast h7).payRate = 40 ∧
      ((analysis7 scenarioC).getLast h7).payRate ≠ 20 ∧
      ((analysis7 scenarioC).getLast h7).pctAccounts = 100 := by
  obtain ⟨h7, h9, hpct, -, -, -, -, hrate, -, -, -, -⟩ :=
    claim_C1_grand_total_recomputed scenarioC (by decide) (by decide)
  have h1 : ((personalOpen scenarioC).map (·.totalItems)).sum = 100 := by
    show ((([rBig, rZero].filter
      fun r => r.accountStatus == "O" && r.businessFlag == "P").map (·.totalItems))).sum = 100
    norm_num [rBig, rZero, List.filter]
  have h2 : ((personalOpen scenarioC).map (·.paidItems)).sum = 40 := by
    show ((([rBig, rZero].filter
      fun r => r.accountStatus == "O" && r.businessFlag == "P").map (·.paidItems))).sum = 40
    norm_num [rBig, rZero, List.filter]
  rw [h1, h2] at hrate
  rw [if_pos (by norm_num)] at hrate
  rw [roundTo_eq_of_mul 1 (40 / 100 * 100) 400 (by norm_num)] at hrate
  refine ⟨h7, ?_, ?_, hpct⟩
  · rw [hrate]
    norm_num
  · rw [hrate]
    norm_num

/-! ### C3 — null group keys -/

theorem nodup_keys13 (t : List Rec) : (keys13 t).Nodup := by
  unfold keys13 sortStrs
  exact ((List.perm_insertionSort _ _).nodup_iff).mpr (List.nodup_dedup _)

theorem mem_keys13 {t : List Rec} {r : Rec} {s : String}
    (hr : r ∈ personalOpen t) (hs : r.regE = some s) : s ∈ keys13 t := by
  unfold keys13 sortStrs
  exact ((List.perm_insertionSort _ _).mem_iff).mpr
    (List.mem_dedup.mpr (List.mem_filterMap.mpr ⟨r, hr, hs⟩))

/-- **C3 counterexample.** Scenario D: 20 personal open rows, the Reg E
flag null in 3 of them.  The analysis-13 grouping emits *no* row for the
null group (the pandas default silently drops null keys), and its grand
total counts only the 17 non-null rows. -/
theorem claim_C3_cex :
    (∀ row ∈ analysis13 scenarioD, row.regEFlag ≠ none) ∧
    (∃ h : analysis13 scenarioD ≠ [],
      ((analysis13 scenarioD).getLast h).nAccounts = 17) := by
  constructor
  · intro row hrow
    unfold analysis13 at hrow
    rcases List.mem_append.mp hrow with hb | hg
    · obtain ⟨s, -, rfl⟩ := List.mem_map.mp hb
      simp [row13]
    · have : row = gt13 scenarioD := by simpa using hg
      subst this
      simp [gt13]
  · refine ⟨analysis13_ne_nil _, ?_⟩
    rw [analysis13_getLast]
    show ta13 scenarioD = 17
    have hk : keys13 scenarioD = ["N", "Y"] := by decide
    have hN : (grp13 scenarioD "N").length = 7 := by decide
    have hY : (grp13 scenarioD "Y").length = 10 := by decide
    unfold ta13
    rw [hk]
    simp only [List.map_cons, List.map_nil, List.sum_cons, List.sum_nil, hN, hY]
    norm_num

/-- **C3 (amended).** The default (`dropna=True`) grouping of analysis 13
never emits a null-key row and its totals count only the rows whose flag
is non-null — null-key rows are silently dropped there.  Only the
`dropna=False` grouping feeding the analysis-15 pivot emits the null group
as its own row, carrying that group's own count. -/
theorem claim_C3_null_groups_amended (t : List Rec) :
    (∀ row ∈ analysis13 t, row.regEFlag ≠ none) ∧
    (∃ h : analysis13 t ≠ [],
      ((analysis13 t).getLast h).nAccounts
        = ((((personalOpen t).filter fun r => r.regE.isSome).length : ℚ))) ∧
    (∀ k ∈ (histRows t).map fun r => (yearBinOf r, r.regE),
      (k, (((histRows t).filter fun r => (yearBinOf r, r.regE) == k).length : ℚ))
        ∈ pivotRaw t) := by
  refine ⟨?_, ⟨analysis13_ne_nil t, ?_⟩, ?_⟩
  · intro row hrow
    unfold analysis13 at hrow
    rcases List.mem_append.mp hrow with hb | hg
    · obtain ⟨s, -, rfl⟩ := List.mem_map.mp hb
      simp [row13]
    · have : row = gt13 t := by simpa using hg
      subst this
      simp [gt13]
  · rw [analysis13_getLast]
    show ta13 t = _
    have hgrp : ∀ s, grp13 t s
        = ((personalOpen t).filter fun r => r.regE.isSome).filter
            fun r => r.regE == some s := by
      intro s
      rw [List.filter_filter]
      unfold grp13
      apply List.filter_congr
      intro r _
      cases hre : r.regE <;> simp [hre]
    have hcnt := count_groups ((keys13 t).map some) (·.regE)
      ((personalOpen t).filter fun r => r.regE.isSome)
      ((nodup_keys13 t).map fun a b h => Option.some.inj h)
      (by
        intro r hr
        obtain ⟨hrp, hrs⟩ := List.mem_filter.mp hr
        obtain ⟨s, hs⟩ := Option.isSome_iff_exists.mp hrs
        show r.regE ∈ List.map some (keys13 t)
        rw [hs]
        exact List.mem_map_of_mem some (mem_keys13 hrp hs))
    unfold ta13
    rw [← hcnt, List.map_map]
    apply congrArg
    apply List.map_congr_left
    intro s _
    simp only [Function.comp]
    rw [hgrp s]
  · intro k hk
    show (k, (((histRows t).filter fun r => (yearBinOf r, r.regE) == k).length : ℚ))
      ∈ (List.insertionSort (fun a b => pairLE a b = true)
          ((histRows t).map fun r => (yearBinOf r, r.regE)).dedup).map
        fun k2 => (k2, (((histRows t).filter fun r => (yearBinOf r, r.regE) == k2).length : ℚ))
    exact List.mem_map_of_mem _
      (((List.perm_insertionSort _ _).mem_iff).mpr (List.mem_dedup.mpr hk))

/-- Witness for C3 (amended) on Scenario D: the `dropna=False` pivot
grouping does emit the null-flag group as its own row with count 3. -/
theorem claim_C3_null_groups_amended_witness :
    ((("2013", (none : Option String)), (3 : ℚ))) ∈ pivotRaw scenarioD := by
  have h := (claim_C3_null_groups_amended scenarioD).2.2 ("2013", none) (by decide)
  have hlen : ((histRows scenarioD).filter
      fun r => (yearBinOf r, r.regE) == ("2013", none)).length = 3 := by decide
  rw [hlen] at h
  simpa using h

/-! ### C7 — the grand-total row stays last, sorting included -/

theorem catKey_grand_total : catKey "Grand Total" = 19 := by decide

/-- Every label `assign_year_bin` can produce sits strictly before
`"Grand Total"` in the declared categorical order. -/
theorem catKey_assignYearBin_lt (y : Option ℤ) :
    catKey (assignYearBin y) < catKey "Grand Total" := by
  match y with
  | none => decide
  | some v =>
    show catKey (if v < 2010 then "<2010" else if v ≤ 2025 then toString v else "2025+")
      < catKey "Grand Total"
    by_cases h1 : v < 2010
    · rw [if_pos h1]
      decide
    · rw [if_neg h1]
      by_cases h2 : v ≤ 2025
      · rw [if_pos h2]
        push_neg at h1
        interval_cases v <;> decide
      · rw [if_neg h2]
        decide

/-- The sorted analysis-15 table always ends with the grand-total row:
every body label is an `assign_year_bin` output, which sorts strictly
before the `"Grand Total"` category. -/
theorem table15_getLast_yearOpened (rows : List Rec) (flags : List (Option String)) :
    ∃ h : table15 rows flags ≠ [],
      ((table15 rows flags).getLast h).yearOpened = "Grand Total" := by
  have htab : table15 rows flags
      = List.insertionSort (fun a b => catKey a.yearOpened ≤ catKey b.yearOpened)
          (((body15 rows flags) ++ [gt15 rows flags]).map
            fun row => { row with optInPct := roundTo 1 row.optInPct }) := rfl
  have hperm := List.perm_insertionSort
    (fun (a b : Row15) => catKey a.yearOpened ≤ catKey b.yearOpened)
    (((body15 rows flags) ++ [gt15 rows flags]).map
      fun row => { row with optInPct := roundTo 1 row.optInPct })
  haveI : IsTotal Row15 (fun a b => catKey a.yearOpened ≤ catKey b.yearOpened) :=
    ⟨fun a b => Nat.le_total _ _⟩
  haveI : IsTrans Row15 (fun a b => catKey a.yearOpened ≤ catKey b.yearOpened) :=
    ⟨fun _ _ _ h1 h2 => Nat.le_trans h1 h2⟩
  have hsorted := List.sorted_insertionSort
    (fun (a b : Row15) => catKey a.yearOpened ≤ catKey b.yearOpened)
    (((body15 rows flags) ++ [gt15 rows flags]).map
      fun row => { row with optInPct := roundTo 1 row.optInPct })
  have hne : table15 rows flags ≠ [] := by
    rw [htab]
    intro hnil
    have hlen := hperm.length_eq
    rw [hnil] at hlen
    simp at hlen
  refine ⟨hne, ?_⟩
  have hxmem : (table15 rows flags).getLast hne ∈ table15 rows flags := List.getLast_mem hne
  have hxmax : ∀ y ∈ table15 rows flags,
      catKey y.yearOpened ≤ catKey (((table15 rows flags).getLast hne).yearOpened) := by
    intro y hy
    have hsplit := List.dropLast_append_getLast hne
    have hsorted2 : List.Sorted (fun a b => catKey a.yearOpened ≤ catKey b.yearOpened)
        ((table15 rows flags).dropLast ++ [(table15 rows flags).getLast hne]) := by
      rw [hsplit, htab]
      exact hsorted
    rw [← hsplit] at hy
    rcases List.mem_append.mp hy with hyd | hyl
    · exact (List.pairwise_append.mp hsorted2).2.2 y hyd _ (List.mem_singleton.mpr rfl)
    · have heq : y = (table15 rows flags).getLast hne := by simpa using hyl
      rw [heq]
  have hgt : ({ gt15 rows flags with optInPct := roundTo 1 (gt15 rows flags).optInPct }
      : Row15) ∈ table15 rows flags := by
    rw [htab]
    apply hperm.mem_iff.mpr
    exact List.mem_map_of_mem _ (List.mem_append_right _ (List.mem_singleton.mpr rfl))
  have hxl0 : (table15 rows flags).getLast hne
      ∈ ((body15 rows flags) ++ [gt15 rows flags]).map
          (fun row => { row with optInPct := roundTo 1 row.optInPct }) := by
    apply hperm.mem_iff.mp
    rw [← htab]
    exact hxmem
  obtain ⟨row0, hrow0, hxeq⟩ := List.mem_map.mp hxl0
  rcases List.mem_append.mp hrow0 with hbody | hgtrow
  · exfalso
    obtain ⟨yb, hyb, rfl⟩ := List.mem_map.mp hbody
    have hyb2 : yb ∈ (rows.map yearBinOf).dedup := by
      unfold yearBins15 sortStrs at hyb
      exact ((List.perm_insertionSort _ _).mem_iff).mp hyb
    obtain ⟨r0, -, rfl⟩ := List.mem_map.mp (List.mem_dedup.mp hyb2)
    have hlt : catKey (yearBinOf r0) < catKey "Grand Total" :=
      catKey_assignYearBin_lt r0.openYear
    have hle := hxmax _ hgt
    rw [← hxeq] at hle
    have hle2 : catKey "Grand Total" ≤ catKey (yearBinOf r0) := hle
    omega
  · have heq : row0 = gt15 rows flags := by simpa using hgtrow
    subst heq
    rw [← hxeq]
    rfl

/-- **C7.** In every produced report table the grand-total row is the last
row — in particular in the historical Reg E table, where the rows are
re-sorted by the `Year Opened` categorical *after* the grand total is
appended. -/
theorem claim_C7_grand_total_last (t : List Rec) :
    (∃ h1 : analysis1 t ≠ [], ((analysis1 t).getLast h1).accountStatus = "Grand Total") ∧
    (∃ h7 : analysis7 t ≠ [], ((analysis7 t).getLast h7).nsfBin = "Grand Total") ∧
    (∃ h9 : analysis9 t ≠ [], ((analysis9 t).getLast h9).nsfBin = "Grand Total") ∧
    (∃ h13 : analysis13 t ≠ [],
      ((analysis13 t).getLast h13).regEFlag = some "Grand Total") ∧
    (∀ tbl, analysis15 t = Except.ok tbl →
      ∃ h : tbl ≠ [], (tbl.getLast h).yearOpened = "Grand Total") := by
  refine ⟨⟨analysis1_ne_nil t, ?_⟩, ⟨analysis7_ne_nil t, ?_⟩, ⟨analysis9_ne_nil t, ?_⟩,
    ⟨analysis13_ne_nil t, ?_⟩, ?_⟩
  · rw [analysis1_getLast]
    rfl
  · rw [analysis7_getLast]
    rfl
  · rw [analysis9_getLast]
    rfl
  · rw [analysis13_getLast]
    rfl
  · intro tbl htbl
    unfold analysis15 at htbl
    cases hflags : pySortedFlags ((histRows t).map (·.regE)).dedup with
    | error e =>
      rw [hflags] at htbl
      exact absurd htbl (by simp)
    | ok flags =>
      rw [hflags] at htbl
      have : table15 (histRows t) flags = tbl := by
        simpa using htbl
      rw [← this]
      exact table15_getLast_yearOpened (histRows t) flags

/-- Witness for C7: on a concrete one-row table, analysis 15 succeeds and
its last row is the grand total. -/
theorem claim_C7_grand_total_last_witness :
    ∃ tbl, analysis15 oneRowTbl = Except.ok tbl ∧
      ∃ h : tbl ≠ [], (tbl.getLast h).yearOpened = "Grand Total" := by
  obtain ⟨-, -, -, -, h15⟩ := claim_C7_grand_total_last oneRowTbl
  exact ⟨_, rfl, h15 _ rfl⟩

/-! ### C8 — no per-analysis error boundary -/

/-- **C8 counterexample.** On a table whose personal open dated rows carry
both a null Reg E flag and a string flag, analysis 15 raises (the
`sorted` of mixed `float`/`str` labels), the error propagates uncaught,
and the whole run yields an error: no sibling report tables are produced,
and no structured failure record exists — only the bare exception. -/
theorem claim_C8_cex :
    analysis15 mixedFlagTbl = Except.error
      "TypeError: '<' not supported between instances of 'float' and 'str'" ∧
    runScript mixedFlagTbl = Except.error
      "TypeError: '<' not supported between instances of 'float' and 'str'" ∧
    ∀ reps : Reports, runScript mixedFlagTbl ≠ Except.ok reps := by
  refine ⟨rfl, rfl, ?_⟩
  intro reps h
  rw [show runScript mixedFlagTbl = Except.error
      "TypeError: '<' not supported between instances of 'float' and 'str'" from rfl] at h
  exact Except.noConfusion h

/-- **C8 (amended).** The script is one module-level sequence with no
per-analysis error boundary: whenever analysis 15 fails, the failure
aborts the whole run — the run's result is the bare propagated error, so
no sibling analysis contributes a report table to the output. -/
theorem claim_C8_no_boundary_amended (t : List Rec) (e : String)
    (h : analysis15 t = Except.error e) : runScript t = Except.error e := by
  unfold runScript
  rw [h]

/-- Witness for C8 (amended) at the mixed-flag table. -/
theorem claim_C8_no_boundary_amended_witness :
    runScript mixedFlagTbl = Except.error
      "TypeError: '<' not supported between instances of 'float' and 'str'" :=
  claim_C8_no_boundary_amended mixedFlagTbl _ rfl

/-! ### C10 — the `add_grand_total` helper -/

theorem lowerChar_ne_R (c : Char) : lowerChar c ≠ 'R' := by
  unfold lowerChar
  split <;> simp_all

/-- The helper's ratio test compares the capitalised literal `"Ratio"`
with the lower-cased column name, so it never matches. -/
theorem pyLower_not_contains_Ratio (s : String) :
    strContains (pyLower s) "Ratio" = false := by
  unfold strContains
  apply decide_eq_false
  intro hin
  have hR : 'R' ∈ (pyLower s).data := hin.subset (by decide)
  have hR2 : 'R' ∈ s.data.map lowerChar := hR
  obtain ⟨c, -, hc⟩ := List.mem_map.mp hR2
  exact lowerChar_ne_R c hc

/-- **C10 counterexample.** `"Pay Ratio"` contains `"ratio"`
case-insensitively, yet `add_grand_total` returns its *sum*, not the NaN
placeholder the claim asserts. -/
theorem claim_C10_cex :
    add_grand_total [("Status", []), ("Pay Ratio", [1, 2])] "Status" "Grand Total"
        = [("Status", Cell.strVal "Grand Total"), ("Pay Ratio", Cell.numVal 3)] ∧
    strContains (pyLower "Pay Ratio") (pyLower "Ratio") = true ∧
    Cell.numVal 3 ≠ Cell.nanVal := by
  refine ⟨?_, by decide, by decide⟩
  unfold add_grand_total
  simp only [List.map_cons, List.map_nil]
  rw [show (("Status" : String) == "Status") = true from by decide]
  rw [show (("Pay Ratio" : String) == "Status") = false from by decide]
  rw [show pctLike "Pay Ratio" = false from by decide]
  norm_num

/-- **C10 (amended).** The totals mapping gives the label column the total
label and sums every column that does not contain `"%"`, `"Avg"`,
`"Average"` or `"Med"`; the intended case-insensitive ratio test is dead —
`"Ratio"` is matched against the lower-cased name and never fires — so
ratio columns are summed rather than set to the NaN placeholder.  The
placeholder columns are never replaced by recomputed values. -/
theorem claim_C10_add_grand_total_amended :
    (∀ s : String, strContains (pyLower s) "Ratio" = false) ∧
    (∀ (cols : List (String × List ℚ)) (lc lab : String),
      add_grand_total cols lc lab = cols.map fun c =>
        if c.1 == lc then (c.1, Cell.strVal lab)
        else if strContains c.1 "%" || strContains c.1 "Avg"
            || strContains c.1 "Average" || strContains c.1 "Med" then (c.1, Cell.nanVal)
        else (c.1, Cell.numVal c.2.sum)) := by
  refine ⟨pyLower_not_contains_Ratio, ?_⟩
  intro cols lc lab
  unfold add_grand_total
  apply List.map_congr_left
  intro c _
  unfold pctLike
  rw [pyLower_not_contains_Ratio c.1]
  simp only [Bool.or_false, Bool.false_or]

/-- Witness for C4: on a one-account table with zero items the grand-total
pay ratio is the guarded zero. -/
theorem claim_C4_zero_guards_witness :
    gt1 oneRowTbl ∈ analysis1 oneRowTbl ∧ (gt1 oneRowTbl).nItems = 0 ∧
    (gt1 oneRowTbl).payRatio = 0 := by
  have hmem : gt1 oneRowTbl ∈ analysis1 oneRowTbl := by
    unfold analysis1
    exact List.mem_append_right _ (List.mem_singleton.mpr rfl)
  have hkeys : groupKeys oneRowTbl (·.accountStatus) = ["O"] := by decide
  have h0 : (gt1 oneRowTbl).nItems = 0 := by
    show ti1 oneRowTbl = 0
    unfold ti1
    rw [hkeys]
    have hg : grp1 oneRowTbl "O" = [rZero] := by decide
    simp [hg, rZero]
  exact ⟨hmem, h0, claim_C4_zero_guards.1 oneRowTbl (gt1 oneRowTbl) hmem h0⟩
